import Mathlib

/-!
Shallow embedding of `src/subtract_regions.rs` from `rsbamtk`: the
concurrent region-subtraction pipeline (`remove_regions_from_bam` and its
helpers `get_intervals` and `get_chrom_names`).

Machine integers (`u64`, `usize`) are modelled as `Nat`: the Rust code only
compares and counts them, so no overflow behaviour is observable.
External library calls are translated by their semantics:
their respective intervals, sorted internally; `Lapper::count(start, stop)`
counts stored intervals `iv` with `iv.start < stop && iv.stop > start`
(rust_lapper's half-open overlap test; sorting does not change the count, so
we model the count directly over the stored list);
`rust_htslib` `fetch(chrom)` followed by `records()` yields exactly the
records placed on reference `chrom`, in file order; record fields
`reference_start` / `reference_end` are carried as opaque data on the record.

Concurrency is modelled by explicit nondeterminism: a `schedule` says which
worker consumed which chromosome names (crossbeam channels deliver every
message to exactly one receiver, and with at least one worker every message
is consumed), and an `arrival` list says in which order the writer received
the emitted batches (any interleaving of the workers' emission sequences is
a permutation of the full batch list, which is what the theorems assume).
-/

/-- `type Iv = Interval<u64, u64>` from rust_lapper: a half-open interval
`[start, stop)` carrying a value (always 0 in this program). -/
structure Iv where
  start : Nat
  stop : Nat
  val : Nat
deriving DecidableEq, Repr

/-- A successfully parsed BED record: chromosome name, start, stop
(`record.chrom()`, `record.start()`, `record.end()` in `get_intervals`). -/
structure BedRecord where
  chrom : String
  start : Nat
  stop : Nat
deriving DecidableEq, Repr

/-- A BAM alignment record as the pipeline observes it: the reference it is
placed on (`none` for a record carrying no reference-sequence identifier),
its `reference_start` and `reference_end`, and an opaque payload that
identifies the record (name, sequence, flags, ...), which the pipeline never
inspects. -/
structure BamRec where
  chrom : Option String
  refStart : Nat
  refEnd : Nat
  payload : String
deriving DecidableEq, Repr

/-- The header of the input BAM: its reference-sequence dictionary, an
ordered list of (name, length) pairs (`@SQ` lines). -/
structure HeaderView where
  targets : List (String × Nat)
deriving DecidableEq, Repr

/-- The reference-sequence names of a header, in header order
(`header.target_names()`). -/
def HeaderView.targetNames (h : HeaderView) : List String :=
  h.targets.map Prod.fst

/-- An input BAM file: header plus records in file order. -/
structure BamFile where
  header : HeaderView
  records : List BamRec
deriving DecidableEq, Repr

/-- `Lapper::count(start, stop)`: the number of stored intervals overlapping
the half-open query `[start, stop)`; rust_lapper's overlap test is
`iv.start < stop && iv.stop > start`. -/
def lapperCount (ivs : List Iv) (start stop : Nat) : Nat :=
  (ivs.filter (fun iv => decide (iv.start < stop) && decide (iv.stop > start))).length

/-- One step of `bed_intervals.entry(chrom).or_insert(vec![]).push(interval)`:
append `iv` to the entry for `c`, creating the entry when absent. The
`HashMap` is modelled as an association list. -/
def insertIv : List (String × List Iv) → String → Iv → List (String × List Iv)
  | [], c, iv => [(c, [iv])]
  | (c', ivs) :: rest, c, iv =>
    if c' = c then (c', ivs ++ [iv]) :: rest else (c', ivs) :: insertIv rest c iv

/-- `HashMap::get`: look up the interval list stored for chromosome `c`. -/
def lookupIdx : List (String × List Iv) → String → Option (List Iv)
  | [], _ => none
  | (c', ivs) :: rest, c => if c' = c then some ivs else lookupIdx rest c

/-- `get_intervals`, after BED parsing: fold the parsed records into the
per-chromosome map, each record contributing `Iv { start, stop, val: 0 }`. -/
def getIntervals (recs : List BedRecord) : List (String × List Iv) :=
  recs.foldl (fun m r => insertIv m r.chrom ⟨r.start, r.stop, 0⟩) []

/-- `RegionIndex.query` from the spec: the overlap count the pipeline uses.
For a chromosome present in the map this is exactly `lapper.count start end`
as called at line 100 of `subtract_regions.rs`; a chromosome with no entry
contributes no overlaps. -/
def query (idx : List (String × List Iv)) (c : String) (s e : Nat) : Nat :=
  match lookupIdx idx c with
  | some ivs => lapperCount ivs s e
  | none => 0

/-- Modelled from the spec: the BED line parser lives in the external `bio`
crate, not under `src/`. Per the spec (§4.1), a line parses exactly when it
decomposes into `(chromosome, start, stop)` with `stop >= start`; extra
columns are ignored. A line is modelled as its tab-separated fields. -/
def parseBedLine (fields : List String) : Option BedRecord :=
  match fields with
  | chrom :: s :: e :: _ =>
    match s.toNat?, e.toNat? with
    | some a, some b => if a ≤ b then some ⟨chrom, a, b⟩ else none
    | _, _ => none
  | _ => none

/-- Parse all lines of the interval file, failing on the first bad line
(`record.expect("Error reading BED record")` aborts `get_intervals` on any
parse failure). -/
def parseBedLines : List (List String) → Except String (List BedRecord)
  | [] => .ok []
  | l :: ls =>
    match parseBedLine l with
    | some r => (parseBedLines ls).map (fun rs => r :: rs)
    | none => .error "ParseError"

/-- `get_intervals` end to end: parse the interval file, then build the
per-chromosome map. -/
def getIntervalsE (lines : List (List String)) :
    Except String (List (String × List Iv)) :=
  (parseBedLines lines).map getIntervals

/-- htslib `header.tid(name)`: the index of the first target with this name,
if any. -/
def nameToTid : List String → String → Option Nat
  | [], _ => none
  | n :: ns, m => if n = m then some 0 else (nameToTid ns m).map (fun t => t + 1)

/-- htslib `header.tid2name(tid)`: the name of the target at index `tid`. -/
def tid2name (h : HeaderView) (t : Nat) : String :=
  h.targetNames.getD t ""

/-- `get_chrom_names`: map every header target name through `tid`, drop the
`None`s, and map the surviving tids back through `tid2name`. -/
def getChromNames (h : HeaderView) : List String :=
  h.targetNames.filterMap (fun n => (nameToTid h.targetNames n).map (tid2name h))

/-- `reader.fetch(&chrom)` followed by `reader.records()`: the records placed
on reference `chrom`, in file order. -/
def fetch (file : List BamRec) (c : String) : List BamRec :=
  file.filter (fun r => r.chrom == some c)

/-- The worker's batch capacity, `1e5 as usize`. -/
def batchCapacity : Nat := 100000

/-- The per-chromosome scan loop shared by both branches of the `match` at
lines 79-140 of `subtract_regions.rs` (the two branches differ only in the
retention test `keep`): at each iteration, first flush the batch when
`batch_counter == 1e5 as usize`, then append the record to the batch iff
`keep` holds of it; after the loop, flush any non-empty remaining batch.
Returns the sequence of batches handed to `writer_sender.send`, in emission
order. `batch` and `counter` mirror `record_batch` and `batch_counter`. -/
def scanLoop (keep : BamRec → Bool) :
    List BamRec → List BamRec → Nat → List (List BamRec) → List (List BamRec)
  | [], batch, _counter, sent =>
    if 0 < batch.length then sent ++ [batch] else sent
  | r :: rs, batch, counter, sent =>
    if counter == batchCapacity then
      if keep r then scanLoop keep rs [r] 1 (sent ++ [batch])
      else scanLoop keep rs [] 0 (sent ++ [batch])
    else
      if keep r then scanLoop keep rs (batch ++ [r]) (counter + 1) sent
      else scanLoop keep rs batch counter sent

/-- One worker iteration for one chromosome name: the `match` on
`intervals_for_subtraction.get(&chrom)`. With intervals present, a record is
kept iff `lapper.count(start, end) == 0`; with no entry, every record is
kept (and no overlap query is performed). Returns the batches emitted for
this chromosome. -/
def workerChromBatches (idx : List (String × List Iv)) (file : List BamRec)
    (c : String) : List (List BamRec) :=
  match lookupIdx idx c with
  | some intervals =>
    scanLoop (fun r => lapperCount intervals r.refStart r.refEnd == 0)
      (fetch file c) [] 0 []
  | none =>
    scanLoop (fun _ => true) (fetch file c) [] 0 []

/-- The records a single chromosome's scan contributes to the output, in
scan order. -/
def chromOutput (idx : List (String × List Iv)) (file : List BamRec)
    (c : String) : List BamRec :=
  (workerChromBatches idx file c).flatten

/-- The records of `fetch file c` whose overlap count is zero: the retained
records of chromosome `c` (derived form of `chromOutput`, see
`chromOutput_eq_filter`). -/
def retainedOn (idx : List (String × List Iv)) (file : List BamRec)
    (c : String) : List BamRec :=
  (fetch file c).filter (fun r => query idx c r.refStart r.refEnd == 0)

/-- One worker's full run: it consumes its share `work` of the chromosome
queue in order, emitting each chromosome's batches in sequence. -/
def workerRun (idx : List (String × List Iv)) (file : List BamRec)
    (work : List String) : List (List BamRec) :=
  (work.map (workerChromBatches idx file)).flatten

/-- All batches emitted across the worker pool, grouped by worker, for a
given schedule (which worker consumed which chromosomes, in which order). -/
def allBatches (idx : List (String × List Iv)) (file : List BamRec)
    (sched : List (List String)) : List (List BamRec) :=
  (sched.map (workerRun idx file)).flatten

/-- A possible outcome of the channel dispatch at lines 160-165: one work
list per worker thread; with at least one worker every enqueued chromosome
name is consumed by exactly one worker, with no worker pool (`n = 0`) the
queued names are never consumed. -/
def ValidSchedule (n : Nat) (names : List String)
    (sched : List (List String)) : Prop :=
  sched.length = n ∧ List.Perm sched.flatten (if n = 0 then [] else names)

/-- `Header::from_template(&header_view)`: the output header carries the
input's reference-sequence dictionary unchanged. -/
def headerFromTemplate (h : HeaderView) : List (String × Nat) :=
  h.targets

/-- The writer thread (lines 148-157): opens the output with the header
built from the input header, then writes every record of every received
batch, in arrival order. The output file is modelled as (dictionary,
records written). -/
def writerSink (header : List (String × Nat)) (batches : List (List BamRec)) :
    List (String × Nat) × List BamRec :=
  (header, batches.foldl (fun acc b => acc ++ b) [])

/-- `remove_regions_from_bam` on its success path, as a function of the two
nondeterministic outcomes: `sched` (how the chromosome queue was split among
workers) and `arrival` (the order in which batches reached the writer).
The index is built from the parsed BED records, the chromosome names from
the header, and the writer produces the output file. -/
def removeRegionsFromBam (_bedRecs : List BedRecord) (bam : BamFile)
    (arrival : List (List BamRec)) : List (String × Nat) × List BamRec :=
  writerSink (headerFromTemplate bam.header) arrival

/-- The output of a run with a single worker that consumes the chromosome
queue in header order: each chromosome's retained records, concatenated in
header order. Runs with any worker count produce a permutation of this. -/
def seqOutput (idx : List (String × List Iv)) (file : List BamRec)
    (names : List String) : List BamRec :=
  (names.map (retainedOn idx file)).flatten

/-- The records of all batches emitted by one chromosome scan, in order:
whatever the batching boundaries, their concatenation is the kept records
of the scanned list, appended after the records already pending or sent. -/
theorem scanLoop_flatten (keep : BamRec → Bool) (rs : List BamRec) :
    ∀ (batch : List BamRec) (counter : Nat) (sent : List (List BamRec)),
    (scanLoop keep rs batch counter sent).flatten
      = sent.flatten ++ batch ++ rs.filter keep := by
  induction rs with
  | nil =>
    intro batch counter sent
    simp only [scanLoop, List.filter_nil, List.append_nil]
    split
    · simp
    · next h =>
      have hb : batch = [] := by
        cases batch with
        | nil => rfl
        | cons a l => simp at h
      simp [hb]
  | cons r rs ih =>
    intro batch counter sent
    simp only [scanLoop]
    cases hc : (counter == batchCapacity) with
    | true =>
      cases hk : keep r with
      | true =>
        simp only [hc, hk, if_true]
        rw [ih]
        simp [List.filter_cons, hk, List.flatten_append]
      | false =>
        simp only [hc, hk, if_true, if_false, Bool.false_eq_true]
        rw [ih]
        simp [List.filter_cons, hk, List.flatten_append]
    | false =>
      cases hk : keep r with
      | true =>
        simp only [hc, hk, if_true, Bool.false_eq_true, if_false]
        rw [ih]
        simp [List.filter_cons, hk, List.append_assoc]
      | false =>
        simp only [hc, hk, Bool.false_eq_true, if_false]
        rw [ih]
        simp [List.filter_cons, hk]

/-- Every batch the scan loop emits has between 1 and `batchCapacity`
records, given that the pending batch is consistent with its counter. -/
theorem scanLoop_batch_sizes (keep : BamRec → Bool) (rs : List BamRec) :
    ∀ (batch : List BamRec) (counter : Nat) (sent : List (List BamRec)),
    batch.length = counter → counter ≤ batchCapacity →
    (∀ b ∈ sent, 0 < b.length ∧ b.length ≤ batchCapacity) →
    ∀ b ∈ scanLoop keep rs batch counter sent,
      0 < b.length ∧ b.length ≤ batchCapacity := by
  induction rs with
  | nil =>
    intro batch counter sent hlen hle hsent b hb
    simp only [scanLoop] at hb
    split at hb
    · next hpos =>
      rcases List.mem_append.1 hb with h | h
      · exact hsent b h
      · have : b = batch := by simpa using h
        subst this
        exact ⟨hpos, hlen ▸ hle⟩
    · exact hsent b hb
  | cons r rs ih =>
    intro batch counter sent hlen hle hsent b hb
    simp only [scanLoop] at hb
    cases hc : (counter == batchCapacity) with
    | true =>
      have hcnt : counter = batchCapacity := by simpa using hc
      have hsent' : ∀ b ∈ sent ++ [batch],
          0 < b.length ∧ b.length ≤ batchCapacity := by
        intro b hb
        rcases List.mem_append.1 hb with h | h
        · exact hsent b h
        · have hbb : b = batch := by simpa using h
          subst hbb
          refine ⟨?_, by rw [hlen, hcnt]⟩
          rw [hlen, hcnt]
          decide
      rw [hc] at hb
      simp only [if_true] at hb
      cases hk : keep r with
      | true =>
        rw [hk] at hb
        simp only [if_true] at hb
        exact ih [r] 1 (sent ++ [batch]) (by simp) (by decide) hsent' b hb
      | false =>
        rw [hk] at hb
        simp only [Bool.false_eq_true, if_false] at hb
        exact ih [] 0 (sent ++ [batch]) (by simp) (by simp) hsent' b hb
    | false =>
      rw [hc] at hb
      simp only [Bool.false_eq_true, if_false] at hb
      have hlt : counter < batchCapacity := by
        have : counter ≠ batchCapacity := by
          intro h
          rw [h] at hc
          simp at hc
        omega
      cases hk : keep r with
      | true =>
        rw [hk] at hb
        simp only [if_true] at hb
        exact ih (batch ++ [r]) (counter + 1) sent (by simp [hlen]) (by omega) hsent b hb
      | false =>
        rw [hk] at hb
        simp only [Bool.false_eq_true, if_false] at hb
        exact ih batch counter sent hlen hle hsent b hb

/-- A scan that keeps no record emits no batch. -/
theorem scanLoop_nil_of_filter_nil (keep : BamRec → Bool) (rs : List BamRec)
    (h : rs.filter keep = []) : scanLoop keep rs [] 0 [] = [] := by
  induction rs with
  | nil => rfl
  | cons r rs ih =>
    rw [List.filter_cons] at h
    by_cases hk : keep r = true
    · simp [hk] at h
    · simp only [scanLoop]
      have h0 : ((0 : Nat) == batchCapacity) = false := by decide
      rw [h0]
      simp only [Bool.false_eq_true, if_false]
      rw [Bool.eq_false_iff.2 hk] at h ⊢
      simp only [Bool.false_eq_true, if_false]
      exact ih (by simpa using h)

/-- Both branches of the worker's `match` retain exactly the records whose
`RegionIndex.query` overlap count is zero: with an entry for the chromosome,
`keep` is literally `lapper.count(start, end) == 0`; with no entry, `keep`
is constantly true and the query answers 0. -/
theorem chromOutput_eq_filter (idx : List (String × List Iv))
    (file : List BamRec) (c : String) :
    chromOutput idx file c = retainedOn idx file c := by
  unfold chromOutput workerChromBatches retainedOn
  cases hl : lookupIdx idx c with
  | some intervals =>
    rw [scanLoop_flatten]
    simp only [List.flatten_nil, List.nil_append]
    refine List.filter_congr ?_
    intro r _
    simp [query, hl]
  | none =>
    rw [scanLoop_flatten]
    simp only [List.flatten_nil, List.nil_append, List.filter_true]
    symm
    refine List.filter_eq_self.2 ?_
    intro r _
    simp [query, hl]

/-- `tid2name` inverts `tid`: looking up a name gives an index holding that
name. -/
theorem nameToTid_getD (l : List String) (m : String) :
    ∀ t, nameToTid l m = some t → l.getD t "" = m := by
  induction l with
  | nil => intro t h; simp [nameToTid] at h
  | cons n ns ih =>
    intro t h
    by_cases hn : n = m
    · simp [nameToTid, hn] at h
      simp [← h, hn]
    · simp [nameToTid, hn] at h
      rcases h with ⟨t', ht', rfl⟩
      simpa using ih t' ht'

/-- Every name present in the header resolves to some tid. -/
theorem nameToTid_isSome_of_mem (l : List String) (m : String) (h : m ∈ l) :
    ∃ t, nameToTid l m = some t := by
  induction l with
  | nil => simp at h
  | cons n ns ih =>
    by_cases hn : n = m
    · exact ⟨0, by simp [nameToTid, hn]⟩
    · rcases List.mem_cons.1 h with h' | h'
      · exact absurd h'.symm hn
      · rcases ih h' with ⟨t, ht⟩
        exact ⟨t + 1, by simp [nameToTid, hn, ht]⟩

/-- A `filterMap` that maps every member to itself is the identity. -/
theorem getChromNames_eq_targetNames_aux (f : String → Option String) :
    ∀ L : List String, (∀ n ∈ L, f n = some n) → L.filterMap f = L := by
  intro L
  induction L with
  | nil => intro _; rfl
  | cons x xs ih =>
    intro key
    rw [List.filterMap_cons, key x (by simp)]
    rw [ih (fun n hn => key n (by simp [hn]))]

/-- `get_chrom_names` returns the header's target names unchanged, in header
order: the `tid` / `tid2name` round trip is the identity on names that occur
in the header (for a duplicated name both occurrences resolve to the first,
which carries the same name). -/
theorem getChromNames_eq_targetNames (h : HeaderView) :
    getChromNames h = h.targetNames := by
  unfold getChromNames
  refine getChromNames_eq_targetNames_aux _ _ ?_
  intro n hn
  rcases nameToTid_isSome_of_mem _ _ hn with ⟨t, ht⟩
  rw [ht]
  exact congrArg some (nameToTid_getD _ _ t ht)

/-- Concatenating one worker's emitted batches gives its chromosomes'
outputs in consumption order. -/
theorem workerRun_flatten (idx : List (String × List Iv)) (file : List BamRec)
    (w : List String) :
    (workerRun idx file w).flatten = (w.map (chromOutput idx file)).flatten := by
  induction w with
  | nil => rfl
  | cons c cs ih =>
    unfold workerRun at ih ⊢
    simp only [List.map_cons, List.flatten_cons, List.flatten_append, ih]
    rfl

/-- Concatenating all emitted batches gives the chromosome outputs in
schedule order. -/
theorem allBatches_flatten (idx : List (String × List Iv)) (file : List BamRec)
    (sched : List (List String)) :
    (allBatches idx file sched).flatten
      = (sched.flatten.map (chromOutput idx file)).flatten := by
  induction sched with
  | nil => rfl
  | cons w ws ih =>
    unfold allBatches at ih ⊢
    simp only [List.map_cons, List.flatten_cons, List.flatten_append, ih,
      List.map_append, workerRun_flatten]

/-- The writer appends every received batch to the output, so the written
records are the arrival list's concatenation. -/
theorem writerSink_records (header : List (String × Nat))
    (batches : List (List BamRec)) :
    (writerSink header batches).2 = batches.flatten := by
  unfold writerSink
  simp only
  suffices h : ∀ acc : List BamRec,
      batches.foldl (fun acc b => acc ++ b) acc = acc ++ batches.flatten by
    simpa using h []
  induction batches with
  | nil => intro acc; simp
  | cons b bs ih =>
    intro acc
    simp [ih, List.append_assoc]

/-- The multiset of records written is invariant under how the consumed
chromosome sequence was split among workers and in which order batches
arrived: it always matches the one-worker, header-order output for the
chromosome sequence actually consumed. -/
theorem output_perm_seqOutput (idx : List (String × List Iv))
    (file : List BamRec) (names : List String) (n : Nat)
    (sched : List (List String)) (arrival : List (List BamRec))
    (hn : n ≠ 0) (hs : ValidSchedule n names sched)
    (ha : List.Perm arrival (allBatches idx file sched)) :
    List.Perm arrival.flatten (seqOutput idx file names) := by
  rcases hs with ⟨-, hperm⟩
  rw [if_neg hn] at hperm
  refine (ha.flatten).trans ?_
  rw [allBatches_flatten]
  have h1 : List.Perm (sched.flatten.map (chromOutput idx file))
      (names.map (chromOutput idx file)) := hperm.map _
  refine (h1.flatten).trans ?_
  unfold seqOutput
  have h2 : names.map (chromOutput idx file) = names.map (retainedOn idx file) :=
    List.map_congr_left (fun c _ => chromOutput_eq_filter idx file c)
  rw [h2]

/-- Membership in the sequential output, characterised through the record's
own chromosome: a record placed on `c` appears iff `c` was scanned, the
record is in the file, and its overlap count is zero. -/
theorem mem_seqOutput_iff (idx : List (String × List Iv)) (file : List BamRec)
    (names : List String) (r : BamRec) (c : String) (hr : r.chrom = some c) :
    r ∈ seqOutput idx file names
      ↔ c ∈ names ∧ r ∈ file ∧ query idx c r.refStart r.refEnd = 0 := by
  unfold seqOutput retainedOn fetch
  simp only [List.mem_flatten, List.mem_map]
  constructor
  · rintro ⟨l, ⟨c', hc', rfl⟩, hrl⟩
    rw [List.mem_filter] at hrl
    obtain ⟨hrf, hq⟩ := hrl
    rw [List.mem_filter] at hrf
    obtain ⟨hrfile, hchrom⟩ := hrf
    have hcc : some c = some c' := by
      rw [← hr]
      simpa using hchrom
    obtain rfl : c = c' := by injection hcc
    exact ⟨hc', hrfile, by simpa using hq⟩
  · rintro ⟨hc, hfile, hq⟩
    refine ⟨_, ⟨c, hc, rfl⟩, ?_⟩
    rw [List.mem_filter]
    exact ⟨List.mem_filter.2 ⟨hfile, by simp [hr]⟩, by simp [hq]⟩

/-- The single exclusion interval `[100, 200)` on chr1 of the spec's
boundary-semantics scenario. -/
def demoIdx : List (String × List Iv) := getIntervals [⟨"chr1", 100, 200⟩]

/-- Record spanning `[50, 90)` on chr1. -/
def demoR1 : BamRec := ⟨some "chr1", 50, 90, "r1"⟩

/-- Record spanning `[150, 180)` on chr1. -/
def demoR2 : BamRec := ⟨some "chr1", 150, 180, "r2"⟩

/-- Record spanning `[190, 210)` on chr1. -/
def demoR3 : BamRec := ⟨some "chr1", 190, 210, "r3"⟩

/-- Record spanning `[200, 210)` on chr1. -/
def demoR4 : BamRec := ⟨some "chr1", 200, 210, "r4"⟩

/-- A record on chr2, outside every exclusion interval. -/
def demoS1 : BamRec := ⟨some "chr2", 10, 20, "s1"⟩

/-- An unmapped record carrying no reference-sequence identifier. -/
def demoU1 : BamRec := ⟨none, 5, 10, "u1"⟩

/-- The boundary-scenario records on chr1, in file order. -/
def demoFile : List BamRec := [demoR1, demoR2, demoR3, demoR4]

/-- A one-chromosome input BAM for the boundary scenario. -/
def demoBam : BamFile := ⟨⟨[("chr1", 1000)]⟩, demoFile⟩

/-- A two-chromosome input BAM, also holding an unmapped record. -/
def demo2Bam : BamFile :=
  ⟨⟨[("chr1", 1000), ("chr2", 800)]⟩, [demoR1, demoR2, demoS1, demoU1, demoR3, demoR4]⟩

/-- The parsed interval file of the boundary scenario. -/
def demoBed : List BedRecord := [⟨"chr1", 100, 200⟩]

/-- C1: for every input record R (placed on a header chromosome `c`), R is
present in the output iff `RegionIndex.query(R.chrom, R.start, R.end) == 0`,
where `R.start` / `R.end` are the record's reference start and end: a record
scanned by a worker is appended to a batch, and hence written, exactly when
the overlap count of its `[start, end)` span against the stored intervals
for its chromosome is zero. Stated for any worker count `n ≥ 1`, any split
`sched` of the chromosome queue among the workers, and any order `arrival`
in which the emitted batches reached the writer. -/
theorem claim_C1 (bedRecs : List BedRecord) (bam : BamFile) (n : Nat)
    (sched : List (List String)) (arrival : List (List BamRec))
    (r : BamRec) (c : String)
    (hn : n ≠ 0)
    (hs : ValidSchedule n (getChromNames bam.header) sched)
    (ha : List.Perm arrival (allBatches (getIntervals bedRecs) bam.records sched))
    (hr : r.chrom = some c) (hc : c ∈ getChromNames bam.header)
    (hfile : r ∈ bam.records) :
    r ∈ (removeRegionsFromBam bedRecs bam arrival).2
      ↔ query (getIntervals bedRecs) c r.refStart r.refEnd = 0 := by
  unfold removeRegionsFromBam
  rw [writerSink_records]
  rw [(output_perm_seqOutput (getIntervals bedRecs) bam.records
    (getChromNames bam.header) n sched arrival hn hs ha).mem_iff]
  rw [mem_seqOutput_iff _ _ _ _ c hr]
  constructor
  · rintro ⟨-, -, hq⟩
    exact hq
  · intro hq
    exact ⟨hc, hfile, hq⟩

/-- Witness for C1: the boundary-scenario run with one worker; the record
spanning `[150, 180)` overlaps `[100, 200)`, so it is absent from the
output, matching its overlap count 1. -/
theorem claim_C1_witness :
    ¬ (demoR2 ∈ (removeRegionsFromBam demoBed demoBam
      (allBatches (getIntervals demoBed) demoBam.records [["chr1"]])).2) := by
  have h := claim_C1 demoBed demoBam 1 [["chr1"]]
    (allBatches (getIntervals demoBed) demoBam.records [["chr1"]])
    demoR2 "chr1" (by decide)
    ⟨rfl, by rw [if_neg (by decide : (1 : Nat) ≠ 0)]; decide⟩
    (List.Perm.refl _) rfl (by decide) (by decide)
  intro hmem
  have := h.mp hmem
  revert this
  decide

/-- C2: the overlap test is half-open on both sides: a stored interval
`[a, b)` and a query span `[b, c)` never overlap (in either role), and with
the single stored interval `[100, 200)` the chromosome scan retains the
records spanning `[50, 90)` and `[200, 210)` while dropping those spanning
`[150, 180)` and `[190, 210)`. -/
theorem claim_C2 :
    (∀ a b c : Nat, lapperCount [⟨a, b, 0⟩] b c = 0) ∧
    (∀ a b c : Nat, lapperCount [⟨b, c, 0⟩] a b = 0) ∧
    chromOutput demoIdx demoFile "chr1" = [demoR1, demoR4] := by
  refine ⟨?_, ?_, ?_⟩
  · intro a b c
    simp [lapperCount, List.filter_cons, lt_irrefl]
  · intro a b c
    simp [lapperCount, List.filter_cons, lt_irrefl]
  · decide

/-- C3: a chromosome with no entry in the built region index retains every
scanned record (the worker's `None` arm pushes each record without any
overlap query), and such a chromosome answers every query with overlap
count 0. -/
theorem claim_C3 (idx : List (String × List Iv)) (file : List BamRec)
    (c : String) (h : lookupIdx idx c = none) :
    chromOutput idx file c = fetch file c ∧ ∀ s e, query idx c s e = 0 := by
  constructor
  · unfold chromOutput workerChromBatches
    rw [h, scanLoop_flatten]
    simp
  · intro s e
    simp [query, h]

/-- Witness for C3: chr2 has no entry in the boundary-scenario index, so its
records survive unconditionally and a sample query answers 0. -/
theorem claim_C3_witness :
    chromOutput demoIdx demo2Bam.records "chr2" = fetch demo2Bam.records "chr2"
    ∧ query demoIdx "chr2" 0 500 = 0 := by
  have h := claim_C3 demoIdx demo2Bam.records "chr2" (by decide)
  exact ⟨h.1, h.2 0 500⟩

/-- Parsing the interval file fails exactly when some line fails to parse. -/
theorem parseBedLines_error_iff (ls : List (List String)) :
    (∃ msg, parseBedLines ls = Except.error msg)
      ↔ ∃ l ∈ ls, parseBedLine l = none := by
  induction ls with
  | nil => simp [parseBedLines]
  | cons l ls ih =>
    simp only [parseBedLines]
    cases hp : parseBedLine l with
    | some r =>
      constructor
      · rintro ⟨msg, hmsg⟩
        cases hrec : parseBedLines ls with
        | ok rs =>
          rw [hrec] at hmsg
          simp [Except.map] at hmsg
        | error m =>
          rcases ih.1 ⟨m, hrec⟩ with ⟨l', hl', hfail⟩
          exact ⟨l', by simp [hl'], hfail⟩
      · rintro ⟨l', hl', hfail⟩
        rcases List.mem_cons.1 hl' with rfl | hl''
        · rw [hp] at hfail
          cases hfail
        · rcases ih.2 ⟨l', hl'', hfail⟩ with ⟨msg, hmsg⟩
          refine ⟨msg, ?_⟩
          rw [hmsg]
          rfl
    | none =>
      constructor
      · intro _
        exact ⟨l, by simp, hp⟩
      · intro _
        exact ⟨"ParseError", rfl⟩

/-- Building the index fails exactly when some interval-file line fails to
parse (the map construction itself never fails). -/
theorem getIntervalsE_error_iff (lines : List (List String)) :
    (∃ msg, getIntervalsE lines = Except.error msg)
      ↔ ∃ l ∈ lines, parseBedLine l = none := by
  rw [← parseBedLines_error_iff]
  unfold getIntervalsE
  cases h : parseBedLines lines with
  | ok rs => simp [Except.map, h]
  | error m => simp [Except.map, h]

/-- Folding `k` copies of one BED record into a map holding only its
chromosome appends `k` copies of its interval. -/
theorem getIntervals_replicate_aux (r : BedRecord) :
    ∀ (k : Nat) (acc : List Iv),
    List.foldl (fun m x => insertIv m x.chrom ⟨x.start, x.stop, 0⟩)
      [(r.chrom, acc)] (List.replicate k r)
      = [(r.chrom, acc ++ List.replicate k ⟨r.start, r.stop, 0⟩)] := by
  intro k
  induction k with
  | zero =>
    intro acc
    simp
  | succ k ih =>
    intro acc
    rw [List.replicate_succ, List.foldl_cons]
    have hstep : insertIv [(r.chrom, acc)] r.chrom ⟨r.start, r.stop, 0⟩
        = [(r.chrom, acc ++ [⟨r.start, r.stop, 0⟩])] := by
      simp [insertIv]
    rw [hstep, ih, List.replicate_succ]
    simp

/-- `get_intervals` on `k ≥ 1` identical BED records stores `k` duplicate
intervals under that chromosome, without deduplication. -/
theorem getIntervals_replicate (r : BedRecord) (k : Nat) (hk : k ≠ 0) :
    getIntervals (List.replicate k r)
      = [(r.chrom, List.replicate k ⟨r.start, r.stop, 0⟩)] := by
  cases k with
  | zero => exact absurd rfl hk
  | succ k =>
    unfold getIntervals
    rw [List.replicate_succ, List.foldl_cons]
    have hstep : insertIv [] r.chrom ⟨r.start, r.stop, 0⟩
        = [(r.chrom, [⟨r.start, r.stop, 0⟩])] := rfl
    rw [hstep, getIntervals_replicate_aux, List.replicate_succ]
    simp

/-- `k` duplicate stored intervals each count once in an overlapping
query. -/
theorem lapperCount_replicate (iv : Iv) (k s e : Nat)
    (h1 : iv.start < e) (h2 : iv.stop > s) :
    lapperCount (List.replicate k iv) s e = k := by
  unfold lapperCount
  induction k with
  | zero => rfl
  | succ k ih =>
    rw [List.replicate_succ, List.filter_cons]
    simp [h1, h2, ih]

/-- C4: building the region index from the interval file fails with a
ParseError exactly when some line cannot be decomposed into
(chromosome, start, stop) with stop ≥ start (parser modelled from the spec:
it lives in the external `bio` crate); duplicate intervals are stored
without deduplication, so a query over a region covered by `k` duplicates
returns overlap count `k`. -/
theorem claim_C4 (lines : List (List String)) (k : Nat) (r : BedRecord)
    (s e : Nat) (h1 : r.start < e) (h2 : r.stop > s) :
    ((∃ msg, getIntervalsE lines = Except.error msg)
      ↔ ∃ l ∈ lines, parseBedLine l = none)
    ∧ query (getIntervals (List.replicate k r)) r.chrom s e = k := by
  refine ⟨getIntervalsE_error_iff lines, ?_⟩
  cases k with
  | zero => simp [getIntervals, query, lookupIdx]
  | succ k' =>
    rw [getIntervals_replicate r _ (by simp)]
    unfold query
    rw [lookupIdx, if_pos rfl]
    exact lapperCount_replicate _ _ _ _ h1 h2

/-- Witness for C4: one malformed line (non-numeric start) makes the build
fail, and two duplicate copies of `[100, 200)` answer the query `[150, 180)`
with overlap count 2. -/
theorem claim_C4_witness :
    query (getIntervals (List.replicate 2 ⟨"chr1", 100, 200⟩)) "chr1" 150 180 = 2 :=
  (claim_C4 [["chr1", "x", "200"]] 2 ⟨"chr1", 100, 200⟩ 150 180
    (by decide) (by decide)).2

/-- C5: every batch handed to the transfer channel holds between 1 and
100,000 records (a full batch flushed mid-scan, or the final partial batch
of the chromosome), and a chromosome scan that retains no record emits no
batch. -/
theorem claim_C5 (idx : List (String × List Iv)) (file : List BamRec)
    (c : String) :
    (∀ b ∈ workerChromBatches idx file c,
      1 ≤ b.length ∧ b.length ≤ batchCapacity)
    ∧ (retainedOn idx file c = [] → workerChromBatches idx file c = []) := by
  constructor
  · intro b hb
    unfold workerChromBatches at hb
    cases hl : lookupIdx idx c with
    | some intervals =>
      rw [hl] at hb
      exact scanLoop_batch_sizes _ _ [] 0 [] rfl (by simp [batchCapacity])
        (by simp) b hb
    | none =>
      rw [hl] at hb
      exact scanLoop_batch_sizes _ _ [] 0 [] rfl (by simp [batchCapacity])
        (by simp) b hb
  · intro hret
    unfold retainedOn at hret
    unfold workerChromBatches
    cases hl : lookupIdx idx c with
    | some intervals =>
      apply scanLoop_nil_of_filter_nil
      have heq : (fetch file c).filter
          (fun r => lapperCount intervals r.refStart r.refEnd == 0)
          = (fetch file c).filter
            (fun r => query idx c r.refStart r.refEnd == 0) := by
        refine List.filter_congr ?_
        intro x _
        simp [query, hl]
      rw [heq]
      exact hret
    | none =>
      apply scanLoop_nil_of_filter_nil
      have hfe : fetch file c = [] := by
        have heq : (fetch file c).filter
            (fun r => query idx c r.refStart r.refEnd == 0) = fetch file c := by
          refine List.filter_eq_self.2 ?_
          intro x _
          simp [query, hl]
        rw [heq] at hret
        exact hret
      simp [hfe]

/-- Witness for C5: the boundary scenario emits the single partial batch
`[demoR1, demoR4]` (size 2), and an index covering all of chr1 makes the
chr1 scan emit zero batches. -/
theorem claim_C5_witness :
    (1 ≤ ([demoR1, demoR4] : List BamRec).length
      ∧ ([demoR1, demoR4] : List BamRec).length ≤ batchCapacity)
    ∧ workerChromBatches (getIntervals [⟨"chr1", 0, 1000⟩]) demoFile "chr1"
      = [] := by
  constructor
  · exact (claim_C5 demoIdx demoFile "chr1").1 [demoR1, demoR4] (by decide)
  · exact (claim_C5 (getIntervals [⟨"chr1", 0, 1000⟩]) demoFile "chr1").2
      (by decide)

/-- C6: the output container's header is the input header's full
reference-sequence dictionary, written unmodified, whatever the interval
file, the schedule, or the arrival order — a reference stays in the output
dictionary even when every one of its records is dropped. -/
theorem claim_C6 (bedRecs : List BedRecord) (bam : BamFile)
    (arrival : List (List BamRec)) :
    (removeRegionsFromBam bedRecs bam arrival).1 = bam.header.targets
    ∧ ∀ t ∈ bam.header.targets,
        t ∈ (removeRegionsFromBam bedRecs bam arrival).1 := by
  constructor
  · rfl
  · intro t ht
    exact ht

/-- Witness for C6: with an interval covering all of chr1 (so every chr1
record is dropped), chr1 remains in the output dictionary. -/
theorem claim_C6_witness :
    (removeRegionsFromBam [⟨"chr1", 0, 1000⟩] demoBam
      (allBatches (getIntervals [⟨"chr1", 0, 1000⟩]) demoBam.records
        [["chr1"]])).1 = demoBam.header.targets
    ∧ ("chr1", 1000) ∈ (removeRegionsFromBam [⟨"chr1", 0, 1000⟩] demoBam
      (allBatches (getIntervals [⟨"chr1", 0, 1000⟩]) demoBam.records
        [["chr1"]])).1 := by
  refine ⟨(claim_C6 _ _ _).1, (claim_C6 _ _ _).2 ("chr1", 1000) (by decide)⟩

/-- C7: every chromosome name declared in the input header is enqueued
exactly once, in header order (`get_chrom_names` returns the target names
unchanged, and the dispatch loop sends that list), and with at least one
worker each enqueued name is consumed by exactly one worker: across the
whole pool a header chromosome occurs exactly once among the consumed
work lists. -/
theorem claim_C7 (bam : BamFile) (n : Nat) (sched : List (List String))
    (hnodup : bam.header.targetNames.Nodup) (hn : n ≠ 0)
    (hs : ValidSchedule n (getChromNames bam.header) sched) :
    getChromNames bam.header = bam.header.targetNames
    ∧ ∀ c ∈ bam.header.targetNames, sched.flatten.count c = 1 := by
  refine ⟨getChromNames_eq_targetNames _, ?_⟩
  intro c hc
  rcases hs with ⟨-, hperm⟩
  rw [if_neg hn, getChromNames_eq_targetNames] at hperm
  rw [hperm.count_eq]
  exact List.count_eq_one_of_mem hnodup hc

/-- Witness for C7: a two-worker run over the two-chromosome header, each
worker taking one chromosome; chr1 is consumed exactly once. -/
theorem claim_C7_witness :
    getChromNames demo2Bam.header = demo2Bam.header.targetNames
    ∧ ([["chr2"], ["chr1"]] : List (List String)).flatten.count "chr1" = 1 := by
  have hs : ValidSchedule 2 (getChromNames demo2Bam.header)
      [["chr2"], ["chr1"]] := by
    refine ⟨rfl, ?_⟩
    rw [if_neg (by decide : (2 : Nat) ≠ 0)]
    have hg : getChromNames demo2Bam.header = ["chr1", "chr2"] := by decide
    rw [hg]
    exact List.Perm.swap "chr1" "chr2" []
  have h := claim_C7 demo2Bam 2 [["chr2"], ["chr1"]] (by decide) (by decide) hs
  exact ⟨h.1, h.2 "chr1" (by decide)⟩

/-- C8: the multiset of records written is independent of the worker-thread
count: two runs over the same interval and alignment files, with any two
nonzero pool sizes, any two valid splits of the chromosome queue, and any
two batch arrival orders, write permutations of each other. -/
theorem claim_C8 (bedRecs : List BedRecord) (bam : BamFile) (n₁ n₂ : Nat)
    (sched₁ sched₂ : List (List String))
    (arrival₁ arrival₂ : List (List BamRec))
    (hn₁ : n₁ ≠ 0) (hn₂ : n₂ ≠ 0)
    (hs₁ : ValidSchedule n₁ (getChromNames bam.header) sched₁)
    (hs₂ : ValidSchedule n₂ (getChromNames bam.header) sched₂)
    (ha₁ : List.Perm arrival₁
      (allBatches (getIntervals bedRecs) bam.records sched₁))
    (ha₂ : List.Perm arrival₂
      (allBatches (getIntervals bedRecs) bam.records sched₂)) :
    List.Perm (removeRegionsFromBam bedRecs bam arrival₁).2
      (removeRegionsFromBam bedRecs bam arrival₂).2 := by
  unfold removeRegionsFromBam
  rw [writerSink_records, writerSink_records]
  exact (output_perm_seqOutput (getIntervals bedRecs) bam.records
      (getChromNames bam.header) n₁ sched₁ arrival₁ hn₁ hs₁ ha₁).trans
    (output_perm_seqOutput (getIntervals bedRecs) bam.records
      (getChromNames bam.header) n₂ sched₂ arrival₂ hn₂ hs₂ ha₂).symm

/-- Witness for C8: a one-worker run and a two-worker run (chromosomes
consumed in opposite orders) over the two-chromosome file write permutations
of each other. -/
theorem claim_C8_witness :
    List.Perm
      (removeRegionsFromBam demoBed demo2Bam
        (allBatches (getIntervals demoBed) demo2Bam.records
          [["chr1", "chr2"]])).2
      (removeRegionsFromBam demoBed demo2Bam
        (allBatches (getIntervals demoBed) demo2Bam.records
          [["chr2"], ["chr1"]])).2 := by
  have hg : getChromNames demo2Bam.header = ["chr1", "chr2"] := by decide
  have hs₁ : ValidSchedule 1 (getChromNames demo2Bam.header)
      [["chr1", "chr2"]] := by
    refine ⟨rfl, ?_⟩
    rw [if_neg (by decide : (1 : Nat) ≠ 0), hg]
    exact List.Perm.refl _
  have hs₂ : ValidSchedule 2 (getChromNames demo2Bam.header)
      [["chr2"], ["chr1"]] := by
    refine ⟨rfl, ?_⟩
    rw [if_neg (by decide : (2 : Nat) ≠ 0), hg]
    exact List.Perm.swap "chr1" "chr2" []
  exact claim_C8 demoBed demo2Bam 1 2 [["chr1", "chr2"]] [["chr2"], ["chr1"]]
    _ _ (by decide) (by decide) hs₁ hs₂ (List.Perm.refl _) (List.Perm.refl _)

/-- C9: a record carrying no reference-sequence identifier is never written:
workers only scan records reachable through a per-chromosome fetch, and
every fetched record is placed on the fetched chromosome. -/
theorem claim_C9 (bedRecs : List BedRecord) (bam : BamFile)
    (sched : List (List String)) (arrival : List (List BamRec)) (r : BamRec)
    (ha : List.Perm arrival
      (allBatches (getIntervals bedRecs) bam.records sched))
    (hr : r.chrom = none) :
    r ∉ (removeRegionsFromBam bedRecs bam arrival).2 := by
  unfold removeRegionsFromBam
  rw [writerSink_records]
  intro hmem
  have h1 : r ∈ (allBatches (getIntervals bedRecs) bam.records sched).flatten :=
    (ha.flatten.mem_iff).1 hmem
  rw [allBatches_flatten] at h1
  rcases List.mem_flatten.1 h1 with ⟨l, hl, hrl⟩
  rcases List.mem_map.1 hl with ⟨c, -, rfl⟩
  rw [chromOutput_eq_filter] at hrl
  unfold retainedOn fetch at hrl
  have hchrom := (List.mem_filter.1 (List.mem_filter.1 hrl).1).2
  rw [hr] at hchrom
  simp at hchrom

/-- Witness for C9: the unmapped record of the two-chromosome file is absent
from a one-worker run's output even though it overlaps no interval. -/
theorem claim_C9_witness :
    demoU1 ∉ (removeRegionsFromBam demoBed demo2Bam
      (allBatches (getIntervals demoBed) demo2Bam.records
        [["chr1", "chr2"]])).2 :=
  claim_C9 demoBed demo2Bam [["chr1", "chr2"]] _ demoU1
    (List.Perm.refl _) rfl

/-- C10: with a worker count of 0 no chromosome is ever consumed, so no
batch is ever emitted, and the run still completes writing an output that
holds the full header and zero records. -/
theorem claim_C10 (bedRecs : List BedRecord) (bam : BamFile)
    (sched : List (List String)) (arrival : List (List BamRec))
    (hs : ValidSchedule 0 (getChromNames bam.header) sched)
    (ha : List.Perm arrival
      (allBatches (getIntervals bedRecs) bam.records sched)) :
    removeRegionsFromBam bedRecs bam arrival = (bam.header.targets, []) := by
  rcases hs with ⟨hlen, -⟩
  have hnil : sched = [] := List.length_eq_zero.1 hlen
  subst hnil
  have hb : allBatches (getIntervals bedRecs) bam.records [] = [] := rfl
  rw [hb] at ha
  have harr : arrival = [] := ha.eq_nil
  subst harr
  rfl

/-- Witness for C10: the zero-worker run on the boundary scenario writes the
header and nothing else. -/
theorem claim_C10_witness :
    removeRegionsFromBam demoBed demoBam [] = (demoBam.header.targets, []) :=
  claim_C10 demoBed demoBam [] [] ⟨rfl, by rw [if_pos rfl]; exact List.Perm.refl _⟩
    (List.Perm.refl _)
